import Mathlib

/-
  Verification of the apd arbitrary-precision decimal library.

  Shallow embedding of the arithmetic core: the Decimal value type
  (decimal.go), Condition flags (condition.go), the Rounder machinery
  (round.go), and the Context entry points (context.go).

  Modelling conventions:
  * big.Int becomes Int; big.Int.Quo / Rem / QuoRem are truncated
    division, embedded as Int.tdiv / Int.tmod.
  * int32 fields become Int; the one place Go narrows an int64 into an
    int32 (setExponent writing the exponent) goes through wrap32.
  * int64 sums become Int sums.  In setExponent every delta is checked
    against the 10^5 bounds before being added, so an int64 sum cannot
    wrap for any list short of ~10^13 elements; the wrap is not modelled.
  * tableExp10(n) returns 10^n (the lookup table is an optimization with
    that contract; its scratch argument is always overwritten or ignored
    by callers).
  * NumDigits returns the number of base-10 digits of the coefficient
    (the bit-length lookup table in table.go computes exactly this).
  * Strings produced by formatting are modelled as List Char; error
    values are modelled as Option String carrying the message text.
  * Go funcs returning (Condition, error) and writing a destination
    become functions returning Decimal x Condition x Option String; on
    early-error paths the untouched destination is passed through.
-/

namespace Apd

/-- Narrowing an int64 value into an int32, as Go does with int32(x):
two's-complement wraparound. -/
def wrap32 (n : Int) : Int := (n + 2 ^ 31) % 2 ^ 32 - 2 ^ 31

/-- MaxExponent from decimal.go: the highest exponent supported. -/
def MaxExponent : Int := 100000

/-- MinExponent from decimal.go: the lowest exponent supported. -/
def MinExponent : Int := -100000

/-- Worker for the base-10 digit count: structural recursion on a fuel
bound (any fuel at least the digit count computes the digit count; the
wrapper passes n itself). -/
def numDigitsAux : Nat → Nat → Nat
  | 0, _ => 1
  | fuel + 1, n => if n < 10 then 1 else 1 + numDigitsAux fuel (n / 10)

/-- Number of base-10 digits of a natural number; 0 has one digit.
This is the contract of NumDigits in table.go (the binary-digit lookup
table there computes exactly the base-10 digit count). -/
def numDigitsNat (n : Nat) : Nat := numDigitsAux n n

/-- NumDigits from table.go, on a signed coefficient: digits of |b|. -/
def NumDigits (b : Int) : Int := (numDigitsNat b.natAbs : Int)

/-- big.Int.Cmp: -1, 0 or +1. -/
def cmpInt (a b : Int) : Int := if a < b then -1 else if b < a then 1 else 0

/- ----------------------------------------------------------------- -/
/- Condition flags (condition.go).                                    -/
/- ----------------------------------------------------------------- -/

/-- Condition from condition.go: a bitset of arithmetic conditions,
held in a uint32 in Go. -/
abbrev Condition := Nat

def SystemOverflow : Condition := 1
def SystemUnderflow : Condition := 2
def Overflow : Condition := 4
def Underflow : Condition := 8
def Inexact : Condition := 16
def Subnormal : Condition := 32
def Rounded : Condition := 64
/-- Modelled from the spec: the Clamped condition flag.  decimal.go and
context.go in this snapshot raise Clamped, but the snapshot's
condition.go predates the flag; the spec lists it between Rounded and
DivisionUndefined among the numeric flags. -/
def Clamped : Condition := 128
def DivisionUndefined : Condition := 256
def DivisionByZero : Condition := 512
def DivisionImpossible : Condition := 1024
def InvalidOperation : Condition := 2048

/-- Does the bitset r contain the flag f? -/
def Condition.has (r f : Condition) : Bool := r &&& f != 0

/-- DefaultTraps from context.go. -/
def DefaultTraps : Condition :=
  SystemOverflow ||| SystemUnderflow ||| Overflow ||| Underflow |||
  Subnormal ||| DivisionUndefined ||| DivisionByZero |||
  DivisionImpossible ||| InvalidOperation

/-- The name of one condition flag, as produced by Condition.String in
condition.go.  The system flags carry no name there (they are skipped);
Clamped's name follows the spec's flag list. -/
def flagName (f : Condition) : Option String :=
  if f = Overflow then some "overflow"
  else if f = Underflow then some "underflow"
  else if f = Inexact then some "inexact"
  else if f = Subnormal then some "subnormal"
  else if f = Rounded then some "rounded"
  else if f = Clamped then some "clamped"
  else if f = DivisionUndefined then some "division undefined"
  else if f = DivisionByZero then some "division by zero"
  else if f = DivisionImpossible then some "division impossible"
  else if f = InvalidOperation then some "invalid operation"
  else none

/-- All flag bits in ascending order, the order Condition.String visits
them. -/
def allFlags : List Condition :=
  [SystemOverflow, SystemUnderflow, Overflow, Underflow, Inexact,
   Subnormal, Rounded, Clamped, DivisionUndefined, DivisionByZero,
   DivisionImpossible, InvalidOperation]

/-- Condition.String from condition.go: the comma-joined names of the
set bits, visited from the lowest bit upward, system flags skipped. -/
def Condition.string (r : Condition) : String :=
  String.intercalate ", "
    (allFlags.filterMap (fun f => if r.has f then flagName f else none))

/-- GoError from condition.go: convert a condition bitset to an error
according to the traps. -/
def Condition.GoError (r traps : Condition) : Condition × Option String :=
  if r &&& (SystemOverflow ||| SystemUnderflow) ≠ 0 then
    (r, some "exponent out of range")
  else if r &&& traps ≠ 0 then
    (r, some (Condition.string (r &&& traps)))
  else (r, none)

/- ----------------------------------------------------------------- -/
/- Rounders (round.go).                                               -/
/- ----------------------------------------------------------------- -/

/-- Rounder from round.go: given the pre-round result and the comparison
of the discarded digits with one half (-1 below, 0 equal, 1 above),
decide whether 1 is added to the absolute value of the result. -/
def Rounder := Int → Int → Bool

def roundDown : Rounder := fun _ _ => false

def roundUp : Rounder := fun _ _ => true

def round05Up : Rounder := fun result _ =>
  if result.tmod 5 = 0 then true else result.tmod 10 = 0

def roundHalfUp : Rounder := fun _ half => half ≥ 0

def roundHalfEven : Rounder := fun result half =>
  if half > 0 then true
  else if half < 0 then false
  else result.emod 2 = 1

def roundHalfDown : Rounder := fun _ half => half > 0

def roundFloor : Rounder := fun result _ => result.sign < 0

def roundCeiling : Rounder := fun result _ => result.sign ≥ 0

/- ----------------------------------------------------------------- -/
/- Decimal (decimal.go).                                              -/
/- ----------------------------------------------------------------- -/

/-- Decimal from decimal.go: the value Coeff * 10 ^ Exponent, the sign
carried on the coefficient. -/
structure Decimal where
  Coeff : Int
  Exponent : Int
deriving DecidableEq, Repr

/-- The exact numeric value of a Decimal, as a rational. -/
def val (d : Decimal) : ℚ := (d.Coeff : ℚ) * (10 : ℚ) ^ d.Exponent

/-- New from decimal.go. -/
def New (coeff exponent : Int) : Decimal := ⟨coeff, exponent⟩

def decimalZero : Decimal := New 0 0
def decimalOne : Decimal := New 1 0
/-- Modelled from the spec: the package constant one half (the spec's
half comparison target in setExponent), value 0.5. -/
def decimalHalf : Decimal := New 5 (-1)

/-- Decimal.Sign from decimal.go. -/
def Decimal.Sign (d : Decimal) : Int := d.Coeff.sign

/-- Decimal.NumDigits from table.go. -/
def Decimal.NumDigits (d : Decimal) : Int := Apd.NumDigits d.Coeff

/-- Decimal.Modf from decimal.go, with fresh (non-aliased) integ and
frac destinations: split d into integral and fractional parts. -/
def Decimal.Modf (d : Decimal) : Decimal × Decimal :=
  if 0 < d.Exponent then (d, ⟨0, 0⟩)
  else
    let nd := d.NumDigits
    let exp := -d.Exponent
    if nd < exp then (⟨0, 0⟩, d)
    else
      let e : Int := 10 ^ exp.toNat
      (⟨d.Coeff.tdiv e, 0⟩, ⟨d.Coeff.tmod e, d.Exponent⟩)

/-- Decimal.Modf from decimal.go executed with the integ destination
aliased to the receiver (as Context.Ceil and Context.Floor do through
x.Modf(d, frac) when d == x): the statements are replayed in source
order with integ and the receiver denoting the same cell.  In the
branch where the value is purely fractional the receiver is zeroed
before frac reads it, and in the dividing branch frac.Exponent reads
the receiver's exponent after it was set to 0. -/
def Decimal.ModfAliasInteg (d : Decimal) : Decimal × Decimal :=
  if 0 < d.Exponent then (d, ⟨0, 0⟩)
  else
    let nd := d.NumDigits
    let exp := -d.Exponent
    if nd < exp then (⟨0, 0⟩, ⟨0, 0⟩)
    else
      let e : Int := 10 ^ exp.toNat
      (⟨d.Coeff.tdiv e, 0⟩, ⟨d.Coeff.tmod e, 0⟩)

/-- Decimal.Cmp from decimal.go: compare by sign, then by adjusted
exponent, then by aligned coefficients. -/
def Decimal.Cmp (d x : Decimal) : Int :=
  let ds := d.Sign
  let xs := x.Sign
  if ds < xs then -1
  else if xs < ds then 1
  else if ds = 0 ∧ xs = 0 then 0
  else
    let dn := d.NumDigits + d.Exponent
    let xn := x.NumDigits + x.Exponent
    if dn < xn then (if ds < 0 then 1 else -1)
    else if xn < dn then (if ds < 0 then -1 else 1)
    else
      let diff := (d.Exponent - x.Exponent).natAbs
      let e : Int := 10 ^ diff
      if x.Exponent < d.Exponent then cmpInt (d.Coeff * e) x.Coeff
      else cmpInt d.Coeff (x.Coeff * e)

/- ----------------------------------------------------------------- -/
/- Context (context.go).                                              -/
/- ----------------------------------------------------------------- -/

/-- Context from context.go.  Rounding is total here: Go resolves a nil
Rounding to RoundHalfUp through Context.rounding (a nil Rounding would
make the direct call in setExponent panic, which is unreachable through
the package's entry points and not modelled). -/
structure Context where
  Precision : Nat
  Rounding : Rounder
  MaxExponent : Int
  MinExponent : Int
  Traps : Condition

/-- Context.rounding from round.go (the nil default already resolved). -/
def Context.rounding (c : Context) : Rounder := c.Rounding

/-- BaseContext from context.go (its nil Rounding meaning RoundHalfUp). -/
def BaseContext : Context :=
  ⟨0, roundHalfUp, MaxExponent, MinExponent, DefaultTraps⟩

/-- Context.goError from context.go. -/
def Context.goError (c : Context) (flags : Condition) :
    Condition × Option String :=
  Condition.GoError flags c.Traps

/-- The per-delta scan at the top of setExponent (decimal.go): each
delta is checked against the package exponent bounds before being added
to the running sum; the first delta out of range aborts with the
corresponding system condition. -/
def sumDeltas (acc : Int) : List Int → Except Condition Int
  | [] => Except.ok acc
  | x :: rest =>
      if MaxExponent < x then Except.error (SystemOverflow ||| Overflow)
      else if x < MinExponent then
        Except.error (SystemUnderflow ||| Underflow)
      else sumDeltas (acc + x) rest

/-- Decimal.setExponent from decimal.go: place d at the exponent given
by the sum of the deltas, enforcing system range, context range, and
the subnormal rounding at Etiny.  Returns the updated decimal and the
condition; the early returns leave d untouched. -/
def Decimal.setExponent (d : Decimal) (c : Context) (res : Condition)
    (xs : List Int) : Decimal × Condition :=
  match sumDeltas 0 xs with
  | Except.error e => (d, e)
  | Except.ok sum =>
    let r := wrap32 sum
    let nd := d.NumDigits
    let adj := sum + nd - 1
    if MaxExponent < adj then (d, SystemOverflow ||| Overflow)
    else if adj < MinExponent then (d, SystemUnderflow ||| Underflow)
    else
      let v := adj
      if v < c.MinExponent then
        let res := if d.Sign ≠ 0 then res ||| Subnormal else res
        let Etiny := c.MinExponent - (wrap32 (c.Precision : Int) - 1)
        if r < Etiny then
          let tmp : Decimal := ⟨d.Coeff, r - Etiny⟩
          let p := tmp.Modf
          let integ := p.1
          let frac : Decimal := ⟨p.2.Coeff.natAbs, p.2.Exponent⟩
          let res := if frac.Sign ≠ 0 then res ||| Inexact else res
          let integC :=
            if frac.Sign ≠ 0 ∧
                c.Rounding integ.Coeff (frac.Cmp decimalHalf) then
              if 0 ≤ d.Sign then integ.Coeff + 1 else integ.Coeff - 1
            else integ.Coeff
          let res := if integC.sign = 0 then res ||| Clamped else res
          let res := res ||| Rounded
          let res :=
            if res.has Inexact ∧ res.has Subnormal then res ||| Underflow
            else res
          (⟨integC, Etiny⟩, res)
        else
          let res :=
            if res.has Inexact ∧ res.has Subnormal then res ||| Underflow
            else res
          (⟨d.Coeff, r⟩, res)
      else if c.MaxExponent < v then
        if d.Sign = 0 then
          let res := res ||| Clamped
          let res :=
            if res.has Inexact ∧ res.has Subnormal then res ||| Underflow
            else res
          (⟨d.Coeff, c.MaxExponent⟩, res)
        else
          let res := res ||| Overflow
          let res :=
            if res.has Inexact ∧ res.has Subnormal then res ||| Underflow
            else res
          (⟨d.Coeff, r⟩, res)
      else
        let res :=
          if res.has Inexact ∧ res.has Subnormal then res ||| Underflow
          else res
        (⟨d.Coeff, r⟩, res)

/-- roundAddOne from round.go: add 1 to |b| (the sign argument is the
sign of the rounded number); if the digit count grew, divide by ten and
bump the diff. -/
def roundAddOne (b : Int) (diff : Int) (sign : Int) : Int × Int :=
  let nd := NumDigits b
  let b2 := if 0 ≤ sign then b + 1 else b - 1
  let nd2 := NumDigits b2
  if nd < nd2 then (b2.tdiv 10, diff + 1) else (b2, diff)

/-- Rounder.Round from round.go: set d to x rounded to c.Precision.
Subnormal inputs are delegated to setExponent without the
precision-based division; otherwise excess digits are divided away and
the rounder policy consulted on the discarded half. -/
def Rounder.Round (r : Rounder) (c : Context) (x : Decimal) :
    Decimal × Condition :=
  let d := x
  let nd := x.NumDigits
  let xs := x.Sign
  if xs ≠ 0 ∧ x.Exponent + nd - 1 < c.MinExponent then
    let res := Subnormal
    let p := d.setExponent c res [d.Exponent]
    (p.1, res ||| p.2)
  else
    let diff := nd - (c.Precision : Int)
    if 0 < diff then
      if MaxExponent < diff then (d, SystemOverflow ||| Overflow)
      else if diff < MinExponent then (d, SystemUnderflow ||| Underflow)
      else
        let res := Rounded
        let e : Int := 10 ^ diff.toNat
        let y := d.Coeff.tdiv e
        let m := d.Coeff.tmod e
        if m.sign ≠ 0 then
          let res := res ||| Inexact
          let discard : Decimal := ⟨m.natAbs, -diff⟩
          let p :=
            if r y (discard.Cmp decimalHalf) then roundAddOne y diff xs
            else (y, diff)
          let d2 : Decimal := ⟨p.1, d.Exponent⟩
          let q := d2.setExponent c res [d.Exponent, p.2]
          (q.1, res ||| q.2)
        else
          let d2 : Decimal := ⟨y, d.Exponent⟩
          let q := d2.setExponent c res [d.Exponent, diff]
          (q.1, res ||| q.2)
    else
      let q := d.setExponent c 0 [d.Exponent, 0]
      (q.1, q.2)

/-- Context.round from round.go: no rounding at zero precision (only
the exponent policy), otherwise the context's rounder runs. -/
def Context.round (c : Context) (x : Decimal) : Decimal × Condition :=
  if c.Precision = 0 then
    let d := x
    d.setExponent c 0 [d.Exponent]
  else Rounder.Round c.rounding c x

/-- Context.Round from round.go: round and map the condition through
the traps. -/
def Context.Round (c : Context) (x : Decimal) :
    Decimal × Condition × Option String :=
  let p := c.round x
  (p.1, c.goError p.2)

/-- upscale from decimal.go: align two decimals on the smaller
exponent, failing when the scale factor exceeds MaxExponent. -/
def upscale (a b : Decimal) : Except String (Int × Int × Int) :=
  if a.Exponent = b.Exponent then Except.ok (a.Coeff, b.Coeff, a.Exponent)
  else
    let swapped := a.Exponent < b.Exponent
    let hi := if swapped then b else a
    let lo := if swapped then a else b
    let s := hi.Exponent - lo.Exponent
    if MaxExponent < s then Except.error "exponent out of range"
    else
      let x := hi.Coeff * 10 ^ s.toNat
      if swapped then Except.ok (lo.Coeff, x, lo.Exponent)
      else Except.ok (x, lo.Coeff, lo.Exponent)

/-- Context.Add from context.go. -/
def Context.Add (c : Context) (d x y : Decimal) :
    Decimal × Condition × Option String :=
  match upscale x y with
  | Except.error msg => (d, 0, some ("Add: " ++ msg))
  | Except.ok (a, b, s) => c.Round ⟨a + b, s⟩

/-- Context.Sub from context.go. -/
def Context.Sub (c : Context) (d x y : Decimal) :
    Decimal × Condition × Option String :=
  match upscale x y with
  | Except.error msg => (d, 0, some ("Sub: " ++ msg))
  | Except.ok (a, b, s) => c.Round ⟨a - b, s⟩

/-- Context.Abs from context.go: set, take the absolute coefficient,
round. -/
def Context.Abs (c : Context) (x : Decimal) :
    Decimal × Condition × Option String :=
  c.Round ⟨(x.Coeff.natAbs : Int), x.Exponent⟩

/-- Context.quantize from context.go: rescale v to the target exponent,
scaling the coefficient up exactly or rounding digits away through the
policy rounder at a reduced precision (target exponent 0, adjusted for
the 0.9 to 1.0 rollover), then stamp the requested exponent. -/
def Context.quantize (c : Context) (d v : Decimal) (exp : Int) :
    Decimal × Condition :=
  let diff := exp - v.Exponent
  let d1 : Decimal := ⟨v.Coeff, d.Exponent⟩
  if diff < 0 then
    if diff < Apd.MinExponent then (d1, SystemUnderflow ||| Underflow)
    else (⟨d1.Coeff * 10 ^ (-diff).toNat, exp⟩, 0)
  else if 0 < diff then
    let p := d1.NumDigits - diff
    if p < 0 then
      if d1.Sign ≠ 0 then (⟨0, exp⟩, Inexact ||| Rounded)
      else (⟨d1.Coeff, exp⟩, 0)
    else
      let nc : Context := { c with Precision := p.toNat }
      let d2 : Decimal := ⟨d1.Coeff, -diff⟩
      let q := Rounder.Round nc.rounding nc d2
      let d3 := q.1
      let d4 : Decimal :=
        if 0 < d3.Exponent then ⟨d3.Coeff * 10, exp⟩ else ⟨d3.Coeff, exp⟩
      (d4, q.2)
  else (⟨d1.Coeff, exp⟩, 0)

/-- Context.Quantize from context.go: quantize, flag InvalidOperation
when the result exceeds the precision, round, and map through traps. -/
def Context.Quantize (c : Context) (d v : Decimal) (exp : Int) :
    Decimal × Condition × Option String :=
  let p := c.quantize d v exp
  let res :=
    if (c.Precision : Int) < p.1.NumDigits then p.2 ||| InvalidOperation
    else p.2
  let q := c.round p.1
  (q.1, c.goError (res ||| q.2))

/-- Context.toIntegral from context.go. -/
def Context.toIntegral (c : Context) (d x : Decimal) :
    Decimal × Condition :=
  c.quantize d x 0

/-- Context.ToIntegral from context.go: quantize to exponent 0 and
strip Inexact and Rounded. -/
def Context.ToIntegral (c : Context) (d x : Decimal) :
    Decimal × Condition × Option String :=
  let p := c.toIntegral d x
  let res := p.2 &&& ((Inexact ||| Rounded) ^^^ (2 ^ 32 - 1))
  (p.1, c.goError res)

/-- Context.Ceil from context.go, with a fresh (non-aliased)
destination: split by Modf, add one when a positive fractional part
remains. -/
def Context.Ceil (c : Context) (d x : Decimal) :
    Decimal × Condition × Option String :=
  let p := x.Modf
  if 0 < p.2.Sign then c.Add p.1 p.1 decimalOne
  else (p.1, 0, none)

/-- Context.Ceil from context.go executed with the destination aliased
to the source (d == x), so that x.Modf(d, frac) runs with the receiver
and integ denoting the same cell. -/
def Context.CeilAliased (c : Context) (x : Decimal) :
    Decimal × Condition × Option String :=
  let p := x.ModfAliasInteg
  if 0 < p.2.Sign then c.Add p.1 p.1 decimalOne
  else (p.1, 0, none)

/-- Context.Floor from context.go, fresh destination. -/
def Context.Floor (c : Context) (d x : Decimal) :
    Decimal × Condition × Option String :=
  let p := x.Modf
  if p.2.Sign < 0 then c.Sub p.1 p.1 decimalOne
  else (p.1, 0, none)

/-- errZeroPrecisionStr from context.go. -/
def errZeroPrecisionStr : String :=
  "Context may not have 0 Precision for this operation"

/-- The first adjusting loop of Context.Quo (context.go): while the
dividend is below the divisor, multiply it by ten.  The fuel bounds the
iterations; one more than the digit count of the divisor suffices for
every nonzero dividend, which is the only way the loop is reached. -/
def quoScaleUp (fuel : Nat) (dividend divisor : Nat) (adjust : Int) :
    Nat × Int :=
  match fuel with
  | 0 => (dividend, adjust)
  | fuel + 1 =>
      if dividend < divisor then
        quoScaleUp fuel (dividend * 10) divisor (adjust + 1)
      else (dividend, adjust)

/-- The second adjusting loop of Context.Quo: while the dividend is at
least ten times the divisor, multiply the divisor by ten.  Fuel as
above, one more than the digit count of the dividend suffices. -/
def quoScaleDown (fuel : Nat) (dividend divisor : Nat) (adjust : Int) :
    Nat × Int :=
  match fuel with
  | 0 => (divisor, adjust)
  | fuel + 1 =>
      if divisor * 10 ≤ dividend then
        quoScaleDown fuel dividend (divisor * 10) (adjust - 1)
      else (divisor, adjust)

/-- The main long-division loop of Context.Quo.  The inner
subtract-and-count loop is the truncated division of the dividend by
the divisor.  After the adjusting loops the quotient gains one digit
per iteration, so fuel = precision + 1 suffices on every path the
source reaches (the source loop stops when the quotient has precision
digits or the dividend is exhausted). -/
def quoLoop (fuel : Nat) (prec : Int) (quo dividend divisor : Nat)
    (adjust : Int) : Nat × Nat × Int :=
  match fuel with
  | 0 => (quo, dividend, adjust)
  | fuel + 1 =>
      let quo := quo + dividend / divisor
      let dividend := dividend % divisor
      if (dividend = 0 ∧ 0 ≤ adjust) ∨ NumDigits (quo : Int) = prec then
        (quo, dividend, adjust)
      else quoLoop fuel prec (quo * 10) (dividend * 10) divisor
        (adjust + 1)

/-- Context.Quo from context.go: precision guards, zero-divisor
conditions, then the GDA long-division algorithm with a final rounding
consultation and exponent placement. -/
def Context.Quo (c : Context) (d x y : Decimal) :
    Decimal × Condition × Option String :=
  if c.Precision = 0 then (d, 0, some errZeroPrecisionStr)
  else if 5000 < c.Precision then
    (d, 0, some "Quo requires Precision <= 5000")
  else if y.Sign = 0 then
    if x.Sign = 0 then (d, c.goError DivisionUndefined)
    else (d, c.goError DivisionByZero)
  else
    let body :=
      if x.Sign ≠ 0 then
        let dividend0 := x.Coeff.natAbs
        let divisor0 := y.Coeff.natAbs
        let s1 := quoScaleUp (numDigitsNat divisor0 + 1) dividend0
          divisor0 0
        let s2 := quoScaleDown (numDigitsNat s1.1 + 1) s1.1 divisor0 s1.2
        let m := quoLoop (c.Precision + 1) (c.Precision : Int) 0 s1.1
          s2.1 s2.2
        let quo := m.1
        let dividend := m.2.1
        let adjust := m.2.2
        let divisor := s2.1
        let adj := x.Exponent + (-y.Exponent) - adjust +
          NumDigits (quo : Int) - 1
        if dividend ≠ 0 ∧ c.MinExponent ≤ adj then
          let res := Inexact ||| Rounded
          let half := cmpInt ((dividend : Int) * 2) (divisor : Int)
          if c.rounding (quo : Int) half then
            let p := roundAddOne (quo : Int) 0 1
            (res, p.1, p.2, adjust)
          else (res, (quo : Int), 0, adjust)
        else (0, (quo : Int), 0, adjust)
      else (0, 0, 0, 0)
    let res := body.1
    let quoC := body.2.1
    let diff := body.2.2.1
    let adjust := body.2.2.2
    let q : Decimal := ⟨quoC, 0⟩
    let se := q.setExponent c res
      [x.Exponent, -y.Exponent, -adjust, diff]
    let res := res ||| se.2
    let neg := (x.Sign = -1) ≠ (y.Sign = -1)
    let outC := if neg then -se.1.Coeff else se.1.Coeff
    (⟨outC, se.1.Exponent⟩, c.goError res)

/-- Context.Rem from context.go: zero-divisor conditions
(DivisionUndefined for 0/0, InvalidOperation otherwise), else the
remainder of the truncated integer quotient of the upscaled operands,
DivisionImpossible when that quotient exceeds the precision. -/
def Context.Rem (c : Context) (d x y : Decimal) :
    Decimal × Condition × Option String :=
  if y.Sign = 0 then
    if x.Sign = 0 then (d, c.goError DivisionUndefined)
    else (d, c.goError InvalidOperation)
  else
    match upscale x y with
    | Except.error msg => (d, 0, some ("Rem: " ++ msg))
    | Except.ok (a, b, s) =>
        let tmp := a.tdiv b
        let res :=
          if (c.Precision : Int) < NumDigits tmp then DivisionImpossible
          else 0
        let p := c.round ⟨a.tmod b, s⟩
        (p.1, c.goError (res ||| p.2))

/-- Context.Pow from context.go, covering every early-return path of
the source: the y = 1 and x = 1 shortcuts, the integer test of the
context-rounded |y|, and the zero-base / zero-exponent /
negative-base-with-fractional-exponent cases.  The general branch runs
exp(y ln |x|) through float64-seeded iterations and is outside the
shallow embedding; it is returned as none and no claim depends on it. -/
def Context.Pow (c : Context) (d x y : Decimal) :
    Option (Decimal × Condition × Option String) :=
  if y.Cmp decimalOne = 0 then some (c.Round x)
  else if x.Cmp decimalOne = 0 then some (c.Round x)
  else
    let ab := c.Abs y
    match ab.2.2 with
    | some msg => some (d, 0, some ("Abs: " ++ msg))
    | none =>
        let mf := ab.1.Modf
        let yIsInt := mf.2.Sign = 0
        let xs := x.Sign
        let ys := y.Sign
        if xs = 0 then
          if ys = 0 then some (decimalOne, 0, none)
          else if ys = 1 then some (decimalZero, 0, none)
          else some (d, c.goError InvalidOperation)
        else if ys = 0 then some (decimalOne, 0, none)
        else if (xs = 0 ∧ ys = 0) ∨ (xs < 0 ∧ ¬yIsInt) then
          some (d, c.goError InvalidOperation)
        else none

/- ----------------------------------------------------------------- -/
/- String formatting (decimal.go ToSci).                              -/
/- ----------------------------------------------------------------- -/

/-- One decimal digit as a character (the BigInt decimal-string
collaborator, spec section 1). -/
def digitChar (n : Nat) : Char := Char.ofNat (48 + n)

/-- Worker for the decimal digit string: structural recursion on a
fuel bound, as for numDigitsAux. -/
def natDigitsAux : Nat → Nat → List Char
  | 0, n => [digitChar (n % 10)]
  | fuel + 1, n =>
      if n < 10 then [digitChar n]
      else natDigitsAux fuel (n / 10) ++ [digitChar (n % 10)]

/-- The decimal digit string of a natural number, most significant
digit first (the BigInt decimal-string collaborator). -/
def natDigits (n : Nat) : List Char := natDigitsAux n n

/-- Go fmt %+d: a signed decimal rendering with an explicit sign. -/
def signedDigits (n : Int) : List Char :=
  if 0 ≤ n then '+' :: natDigits n.toNat else '-' :: natDigits (-n).toNat

/-- Decimal.ToSci from decimal.go: standard form with a decimal point
while the exponent is at most 0 and the adjusted exponent is at least
-6, scientific form D.DDDDE+-NN otherwise. -/
def Decimal.ToSci (d : Decimal) : List Char :=
  let s := natDigits d.Coeff.natAbs
  let sgn : List Char := if d.Coeff.sign < 0 then ['-'] else []
  let adj : Int := d.Exponent + ((s.length : Int) - 1)
  if d.Exponent ≤ 0 ∧ -6 ≤ adj then
    let s2 :=
      if d.Exponent < 0 then
        let left : Int := -d.Exponent - (s.length : Int)
        if 0 < left then
          '0' :: '.' :: (List.replicate left.toNat '0' ++ s)
        else if left < 0 then
          s.take (-left).toNat ++ '.' :: s.drop (-left).toNat
        else '0' :: '.' :: s
      else s
    sgn ++ s2
  else
    let dot : List Char := if 1 < s.length then '.' :: s.drop 1 else []
    sgn ++ s.take 1 ++ dot ++ 'E' :: signedDigits adj

/- ----------------------------------------------------------------- -/
/- Digit-count lemmas.                                                -/
/- ----------------------------------------------------------------- -/

theorem numDigitsAux_eq_log (fuel n : Nat) (h : n ≤ fuel) :
    numDigitsAux fuel n = Nat.log 10 n + 1 := by
  induction fuel generalizing n with
  | zero =>
    have : n = 0 := by omega
    subst this
    simp [numDigitsAux]
  | succ fuel ih =>
    rw [numDigitsAux]
    by_cases hn : n < 10
    · rw [if_pos hn, Nat.log_eq_zero_iff.2 (Or.inl hn)]
    · rw [if_neg hn, ih (n / 10) (by omega), Nat.log_div_base]
      have hl : 0 < Nat.log 10 n := Nat.log_pos (by omega) (by omega)
      omega

theorem numDigitsNat_eq_log (n : Nat) :
    numDigitsNat n = Nat.log 10 n + 1 :=
  numDigitsAux_eq_log n n (le_refl n)

theorem numDigitsNat_pos (n : Nat) : 1 ≤ numDigitsNat n := by
  rw [numDigitsNat_eq_log]; omega

theorem numDigitsNat_le (n : Nat) (h : n ≠ 0) :
    10 ^ (numDigitsNat n - 1) ≤ n := by
  rw [numDigitsNat_eq_log]
  simpa using Nat.pow_log_le_self 10 h

theorem numDigitsNat_gt (n : Nat) : n < 10 ^ numDigitsNat n := by
  rw [numDigitsNat_eq_log]
  exact Nat.lt_pow_succ_log_self (by omega) n

theorem NumDigits_pos (b : Int) : 1 ≤ NumDigits b := by
  unfold NumDigits
  exact_mod_cast numDigitsNat_pos b.natAbs

/- ----------------------------------------------------------------- -/
/- Value lemmas.                                                      -/
/- ----------------------------------------------------------------- -/

theorem zpow10_pos (e : Int) : (0 : ℚ) < (10 : ℚ) ^ e :=
  zpow_pos (by norm_num) e

theorem val_eq_zero_iff (d : Decimal) : val d = 0 ↔ d.Coeff = 0 := by
  unfold val
  rw [mul_eq_zero]
  constructor
  · rintro (h | h)
    · exact_mod_cast h
    · exact absurd h (ne_of_gt (zpow10_pos d.Exponent))
  · intro h
    exact Or.inl (by exact_mod_cast h)

theorem val_pos_iff (d : Decimal) : 0 < val d ↔ 0 < d.Coeff := by
  unfold val
  rw [mul_pos_iff_of_pos_right (zpow10_pos d.Exponent)]
  exact_mod_cast Iff.rfl

theorem val_neg_iff (d : Decimal) : val d < 0 ↔ d.Coeff < 0 := by
  unfold val
  constructor
  · intro h
    by_contra hc
    push_neg at hc
    have : (0 : ℚ) ≤ (d.Coeff : ℚ) := by exact_mod_cast hc
    nlinarith [zpow10_pos d.Exponent]
  · intro h
    have : (d.Coeff : ℚ) < 0 := by exact_mod_cast h
    exact mul_neg_of_neg_of_pos this (zpow10_pos d.Exponent)

theorem abs_val (d : Decimal) :
    |val d| = ((d.Coeff.natAbs : ℚ)) * (10 : ℚ) ^ d.Exponent := by
  unfold val
  rw [abs_mul, abs_of_pos (zpow10_pos d.Exponent)]
  congr 1
  rw [Int.cast_natAbs, Int.cast_abs]

/-- Magnitude of a nonzero decimal against its adjusted exponent:
10 ^ (adj) <= |value| * 10 < 10 ^ (adj + 1), phrased with zpow. -/
theorem val_mag (d : Decimal) (h : d.Coeff ≠ 0) :
    (10 : ℚ) ^ (d.NumDigits + d.Exponent - 1) ≤ |val d| ∧
    |val d| < (10 : ℚ) ^ (d.NumDigits + d.Exponent) := by
  have hnd : (1 : Int) ≤ NumDigits d.Coeff := NumDigits_pos d.Coeff
  have hna : d.Coeff.natAbs ≠ 0 := by
    simpa [Int.natAbs_eq_zero] using h
  have hlow := numDigitsNat_le d.Coeff.natAbs hna
  have hhigh := numDigitsNat_gt d.Coeff.natAbs
  rw [abs_val]
  set k := numDigitsNat d.Coeff.natAbs with hk
  have hk1 : 1 ≤ k := numDigitsNat_pos _
  have hnd2 : d.NumDigits = (k : Int) := by
    simp [Decimal.NumDigits, NumDigits, hk]
  constructor
  · have h1 : ((10 : ℚ) ^ (k - 1 : ℕ)) ≤ (d.Coeff.natAbs : ℚ) := by
      exact_mod_cast hlow
    have h2 : (10 : ℚ) ^ (d.NumDigits + d.Exponent - 1) =
        ((10 : ℚ) ^ (k - 1 : ℕ)) * (10 : ℚ) ^ d.Exponent := by
      rw [hnd2, ← zpow_natCast (10 : ℚ) (k - 1), ← zpow_add₀ (by norm_num : (10:ℚ) ≠ 0)]
      congr 1
      omega
    rw [h2]
    exact mul_le_mul_of_nonneg_right h1 (le_of_lt (zpow10_pos _))
  · have h1 : (d.Coeff.natAbs : ℚ) < ((10 : ℚ) ^ (k : ℕ)) := by
      exact_mod_cast hhigh
    have h2 : (10 : ℚ) ^ (d.NumDigits + d.Exponent) =
        ((10 : ℚ) ^ (k : ℕ)) * (10 : ℚ) ^ d.Exponent := by
      rw [hnd2, ← zpow_natCast (10 : ℚ) k, ← zpow_add₀ (by norm_num : (10:ℚ) ≠ 0)]
    rw [h2]
    exact mul_lt_mul_of_pos_right h1 (zpow10_pos _)

/- ----------------------------------------------------------------- -/
/- Cmp correctness.                                                   -/
/- ----------------------------------------------------------------- -/

/-- The three-way comparison of two rationals, the specification Cmp is
measured against. -/
def cmpQ (a b : ℚ) : Int := if a < b then -1 else if b < a then 1 else 0

theorem cmpQ_lt {a b : ℚ} (h : a < b) : cmpQ a b = -1 := by
  unfold cmpQ; rw [if_pos h]

theorem cmpQ_gt {a b : ℚ} (h : b < a) : cmpQ a b = 1 := by
  unfold cmpQ; rw [if_neg (not_lt.2 (le_of_lt h)), if_pos h]

theorem cmpQ_eq {a b : ℚ} (h : a = b) : cmpQ a b = 0 := by
  unfold cmpQ; rw [if_neg (by rw [h]; exact lt_irrefl b),
    if_neg (by rw [h]; exact lt_irrefl b)]

theorem cmpInt_cast_mul (a b : Int) (p : ℚ) (hp : 0 < p) :
    cmpInt a b = cmpQ ((a : ℚ) * p) ((b : ℚ) * p) := by
  rcases Int.lt_trichotomy a b with h | h | h
  · rw [show cmpInt a b = -1 by unfold cmpInt; rw [if_pos h]]
    exact (cmpQ_lt (by
      have : (a : ℚ) < (b : ℚ) := by exact_mod_cast h
      exact (mul_lt_mul_right hp).2 this)).symm
  · rw [show cmpInt a b = 0 by
      unfold cmpInt; rw [if_neg (by omega), if_neg (by omega)]]
    exact (cmpQ_eq (by rw [h])).symm
  · rw [show cmpInt a b = 1 by
      unfold cmpInt; rw [if_neg (by omega), if_pos h]]
    exact (cmpQ_gt (by
      have : (b : ℚ) < (a : ℚ) := by exact_mod_cast h
      exact (mul_lt_mul_right hp).2 this)).symm

/-- Strictly smaller adjusted exponent means strictly smaller
magnitude. -/
theorem abs_val_lt (d x : Decimal) (hd : d.Coeff ≠ 0) (hx : x.Coeff ≠ 0)
    (h : d.NumDigits + d.Exponent < x.NumDigits + x.Exponent) :
    |val d| < |val x| := by
  have h1 := (val_mag d hd).2
  have h2 := (val_mag x hx).1
  have h3 : (10 : ℚ) ^ (d.NumDigits + d.Exponent) ≤
      (10 : ℚ) ^ (x.NumDigits + x.Exponent - 1) :=
    zpow_le_zpow_right₀ (by norm_num) (by omega)
  linarith

/-- Rescaling a decimal onto a smaller exponent. -/
theorem val_rescale (d : Decimal) (e : Int) (h : e ≤ d.Exponent) :
    val d = ((d.Coeff * 10 ^ (d.Exponent - e).natAbs : Int) : ℚ) *
      (10 : ℚ) ^ e := by
  unfold val
  have hk : ((d.Exponent - e).natAbs : Int) = d.Exponent - e :=
    Int.natAbs_of_nonneg (by omega)
  push_cast
  rw [← zpow_natCast (10 : ℚ) (d.Exponent - e).natAbs, mul_assoc,
    ← zpow_add₀ (by norm_num : (10 : ℚ) ≠ 0)]
  congr 2
  omega

/-- The aligned-coefficient comparison at the end of Cmp agrees with
the value comparison. -/
theorem cmp_aligned (d x : Decimal) :
    (if x.Exponent < d.Exponent then
      cmpInt (d.Coeff * 10 ^ (d.Exponent - x.Exponent).natAbs) x.Coeff
     else
      cmpInt d.Coeff (x.Coeff * 10 ^ (d.Exponent - x.Exponent).natAbs)) =
    cmpQ (val d) (val x) := by
  by_cases h : x.Exponent < d.Exponent
  · rw [if_pos h]
    rw [cmpInt_cast_mul _ x.Coeff ((10 : ℚ) ^ x.Exponent)
      (zpow10_pos x.Exponent)]
    rw [← val_rescale d x.Exponent (le_of_lt h)]
    rfl
  · rw [if_neg h]
    push_neg at h
    rw [cmpInt_cast_mul d.Coeff _ ((10 : ℚ) ^ d.Exponent)
      (zpow10_pos d.Exponent)]
    have hx : val x = ((x.Coeff * 10 ^ (x.Exponent - d.Exponent).natAbs :
        Int) : ℚ) * (10 : ℚ) ^ d.Exponent := val_rescale x d.Exponent h
    have hn : (d.Exponent - x.Exponent).natAbs =
        (x.Exponent - d.Exponent).natAbs := by omega
    rw [hn, ← hx]
    rfl

/-- Decimal.Cmp computes the three-way comparison of the exact numeric
values. -/
theorem cmp_val (d x : Decimal) : d.Cmp x = cmpQ (val d) (val x) := by
  have hvd0 : val d = 0 ↔ d.Coeff = 0 := val_eq_zero_iff d
  have hvx0 : val x = 0 ↔ x.Coeff = 0 := val_eq_zero_iff x
  unfold Decimal.Cmp
  rcases Int.lt_trichotomy d.Coeff 0 with hd | hd | hd <;>
    rcases Int.lt_trichotomy x.Coeff 0 with hx | hx | hx
  -- d < 0, x < 0
  · have hds : d.Sign = -1 := Int.sign_eq_neg_one_iff_neg.2 hd
    have hxs : x.Sign = -1 := Int.sign_eq_neg_one_iff_neg.2 hx
    rw [hds, hxs]
    simp only [lt_irrefl, if_false, if_neg (by omega : ¬((-1 : Int) = 0 ∧ (-1 : Int) = 0))]
    have hvd : val d < 0 := (val_neg_iff d).2 hd
    have hvx : val x < 0 := (val_neg_iff x).2 hx
    rcases Int.lt_trichotomy (d.NumDigits + d.Exponent)
        (x.NumDigits + x.Exponent) with hn | hn | hn
    · rw [if_pos hn, if_pos (by omega : (-1 : Int) < 0)]
      have := abs_val_lt d x (by omega) (by omega) hn
      rw [abs_of_neg hvd, abs_of_neg hvx] at this
      exact (cmpQ_gt (by linarith)).symm
    · rw [if_neg (by omega), if_neg (by omega)]
      exact cmp_aligned d x
    · rw [if_neg (by omega), if_pos hn, if_pos (by omega : (-1 : Int) < 0)]
      have := abs_val_lt x d (by omega) (by omega) hn
      rw [abs_of_neg hvd, abs_of_neg hvx] at this
      exact (cmpQ_lt (by linarith)).symm
  -- d < 0, x = 0
  · have hds : d.Sign = -1 := Int.sign_eq_neg_one_iff_neg.2 hd
    have hxs : x.Sign = 0 := by simp [Decimal.Sign, hx]
    rw [hds, hxs, if_pos (by omega : (-1 : Int) < 0)]
    exact (cmpQ_lt (by
      have : val d < 0 := (val_neg_iff d).2 hd
      have hx0 : val x = 0 := hvx0.2 hx
      linarith)).symm
  -- d < 0, x > 0
  · have hds : d.Sign = -1 := Int.sign_eq_neg_one_iff_neg.2 hd
    have hxs : x.Sign = 1 := Int.sign_eq_one_iff_pos.2 hx
    rw [hds, hxs, if_pos (by omega : (-1 : Int) < 1)]
    exact (cmpQ_lt (by
      have h1 : val d < 0 := (val_neg_iff d).2 hd
      have h2 : 0 < val x := (val_pos_iff x).2 hx
      linarith)).symm
  -- d = 0, x < 0
  · have hds : d.Sign = 0 := by simp [Decimal.Sign, hd]
    have hxs : x.Sign = -1 := Int.sign_eq_neg_one_iff_neg.2 hx
    rw [hds, hxs, if_neg (by omega : ¬(0 : Int) < -1),
      if_pos (by omega : (-1 : Int) < 0)]
    exact (cmpQ_gt (by
      have h1 : val x < 0 := (val_neg_iff x).2 hx
      have h2 : val d = 0 := hvd0.2 hd
      linarith)).symm
  -- d = 0, x = 0
  · have hds : d.Sign = 0 := by simp [Decimal.Sign, hd]
    have hxs : x.Sign = 0 := by simp [Decimal.Sign, hx]
    rw [hds, hxs]
    simp only [lt_irrefl, if_false, if_pos (⟨rfl, rfl⟩ : (0 : Int) = 0 ∧ (0 : Int) = 0)]
    exact (cmpQ_eq (by rw [hvd0.2 hd, hvx0.2 hx])).symm
  -- d = 0, x > 0
  · have hds : d.Sign = 0 := by simp [Decimal.Sign, hd]
    have hxs : x.Sign = 1 := Int.sign_eq_one_iff_pos.2 hx
    rw [hds, hxs, if_pos (by omega : (0 : Int) < 1)]
    exact (cmpQ_lt (by
      have h1 : 0 < val x := (val_pos_iff x).2 hx
      have h2 : val d = 0 := hvd0.2 hd
      linarith)).symm
  -- d > 0, x < 0
  · have hds : d.Sign = 1 := Int.sign_eq_one_iff_pos.2 hd
    have hxs : x.Sign = -1 := Int.sign_eq_neg_one_iff_neg.2 hx
    rw [hds, hxs, if_neg (by omega : ¬(1 : Int) < -1),
      if_pos (by omega : (-1 : Int) < 1)]
    exact (cmpQ_gt (by
      have h1 : 0 < val d := (val_pos_iff d).2 hd
      have h2 : val x < 0 := (val_neg_iff x).2 hx
      linarith)).symm
  -- d > 0, x = 0
  · have hds : d.Sign = 1 := Int.sign_eq_one_iff_pos.2 hd
    have hxs : x.Sign = 0 := by simp [Decimal.Sign, hx]
    rw [hds, hxs, if_neg (by omega : ¬(1 : Int) < 0),
      if_pos (by omega : (0 : Int) < 1)]
    exact (cmpQ_gt (by
      have h1 : 0 < val d := (val_pos_iff d).2 hd
      have h2 : val x = 0 := hvx0.2 hx
      linarith)).symm
  -- d > 0, x > 0
  · have hds : d.Sign = 1 := Int.sign_eq_one_iff_pos.2 hd
    have hxs : x.Sign = 1 := Int.sign_eq_one_iff_pos.2 hx
    rw [hds, hxs]
    simp only [lt_irrefl, if_false, if_neg (by omega : ¬((1 : Int) = 0 ∧ (1 : Int) = 0))]
    have hvd : 0 < val d := (val_pos_iff d).2 hd
    have hvx : 0 < val x := (val_pos_iff x).2 hx
    rcases Int.lt_trichotomy (d.NumDigits + d.Exponent)
        (x.NumDigits + x.Exponent) with hn | hn | hn
    · rw [if_pos hn, if_neg (by omega : ¬(1 : Int) < 0)]
      have := abs_val_lt d x (by omega) (by omega) hn
      rw [abs_of_pos hvd, abs_of_pos hvx] at this
      exact (cmpQ_lt this).symm
    · rw [if_neg (by omega), if_neg (by omega)]
      exact cmp_aligned d x
    · rw [if_neg (by omega), if_pos hn, if_neg (by omega : ¬(1 : Int) < 0)]
      have := abs_val_lt x d (by omega) (by omega) hn
      rw [abs_of_pos hvd, abs_of_pos hvx] at this
      exact (cmpQ_gt this).symm

/- ----------------------------------------------------------------- -/
/- Modf helper lemmas.                                                -/
/- ----------------------------------------------------------------- -/

theorem tdiv_nonpos_of_nonpos {a b : Int} (h : a ≤ 0) (hb : 0 ≤ b) :
    a.tdiv b ≤ 0 := by
  have hd := Int.tdiv_nonneg (a := -a) (b := b) (by omega) hb
  rw [Int.neg_tdiv] at hd
  omega

theorem tmod_nonpos_of_nonpos {a b : Int} (h : a ≤ 0) : a.tmod b ≤ 0 := by
  have hd := Int.tmod_nonneg (a := -a) b (by omega)
  rw [Int.tmod_def, Int.neg_tdiv] at hd
  rw [Int.tmod_def]
  have e : b * -(a.tdiv b) = -(b * a.tdiv b) := by ring
  rw [e] at hd
  set t := b * a.tdiv b
  omega

theorem val_mk_zero_exp (coeff : Int) :
    val ⟨coeff, 0⟩ = (coeff : ℚ) := by
  simp [val]

theorem pow_mul_zpow_cancel {e : Int} (h : e ≤ 0) :
    ((10 : ℚ) ^ (-e).toNat) * (10 : ℚ) ^ e = 1 := by
  rw [← zpow_natCast (10 : ℚ) (-e).toNat,
    ← zpow_add₀ (by norm_num : (10 : ℚ) ≠ 0)]
  have : ((-e).toNat : Int) + e = 0 := by omega
  rw [this, zpow_zero]

/-- C8: for every Decimal x split by Modf into fresh destinations
(integ, frac), the exact values add back to x (so a context Add of the
parts compares equal to x), integ.Exponent is nonnegative,
frac.Exponent is nonpositive, and each part is zero or carries the sign
of x. -/
theorem modf_split_c8 (x : Decimal) :
    val x.Modf.1 + val x.Modf.2 = val x ∧
    0 ≤ x.Modf.1.Exponent ∧
    x.Modf.2.Exponent ≤ 0 ∧
    (x.Modf.1.Sign = x.Sign ∨ x.Modf.1.Coeff = 0) ∧
    (x.Modf.2.Sign = x.Sign ∨ x.Modf.2.Coeff = 0) := by
  unfold Decimal.Modf
  by_cases h1 : 0 < x.Exponent
  · rw [if_pos h1]
    dsimp only
    refine ⟨?_, by omega, by norm_num, Or.inl rfl, Or.inr rfl⟩
    have : val ⟨0, 0⟩ = 0 := by simp [val]
    simp [this]
  · rw [if_neg h1]
    push_neg at h1
    by_cases h2 : x.NumDigits < -x.Exponent
    · rw [if_pos h2]
      dsimp only
      refine ⟨?_, le_refl 0, h1, Or.inr rfl, Or.inl rfl⟩
      have : val ⟨0, 0⟩ = 0 := by simp [val]
      simp [this]
    · rw [if_neg h2]
      dsimp only
      push_neg at h2
      set p : Int := 10 ^ (-x.Exponent).toNat with hp
      have hppos : 0 < p := by positivity
      refine ⟨?_, le_refl 0, h1, ?_, ?_⟩
      · have hsplit : p * (x.Coeff.tdiv p) + x.Coeff.tmod p = x.Coeff :=
          Int.tdiv_add_tmod x.Coeff p
        show val ⟨x.Coeff.tdiv p, 0⟩ + val ⟨x.Coeff.tmod p, x.Exponent⟩ =
          val x
        rw [val_mk_zero_exp]
        unfold val
        rw [show ((⟨x.Coeff.tmod p, x.Exponent⟩ : Decimal)).Coeff =
          x.Coeff.tmod p from rfl]
        rw [show ((⟨x.Coeff.tmod p, x.Exponent⟩ : Decimal)).Exponent =
          x.Exponent from rfl]
        have hc : (x.Coeff : ℚ) =
            (p : ℚ) * (x.Coeff.tdiv p : ℚ) + (x.Coeff.tmod p : ℚ) := by
          exact_mod_cast congrArg (fun n : Int => (n : ℚ)) hsplit.symm
        rw [hc, add_mul, mul_comm ((p : ℚ)) ((x.Coeff.tdiv p : ℚ)),
          mul_assoc]
        have hcan : (p : ℚ) * (10 : ℚ) ^ x.Exponent = 1 := by
          rw [hp]
          push_cast
          exact pow_mul_zpow_cancel h1
        rw [hcan, mul_one]
      · show (x.Coeff.tdiv p).sign = x.Coeff.sign ∨ x.Coeff.tdiv p = 0
        rcases Int.lt_trichotomy x.Coeff 0 with hc | hc | hc
        · have hq : x.Coeff.tdiv p ≤ 0 :=
            tdiv_nonpos_of_nonpos (le_of_lt hc) (le_of_lt hppos)
          rcases Int.le_iff_lt_or_eq.1 hq with hq1 | hq1
          · exact Or.inl (by
              rw [Int.sign_eq_neg_one_iff_neg.2 hq1,
                Int.sign_eq_neg_one_iff_neg.2 hc])
          · exact Or.inr hq1
        · exact Or.inr (by rw [hc, Int.zero_tdiv])
        · have hq : 0 ≤ x.Coeff.tdiv p :=
            Int.tdiv_nonneg (le_of_lt hc) (le_of_lt hppos)
          rcases Int.le_iff_lt_or_eq.1 hq with hq1 | hq1
          · exact Or.inl (by
              rw [Int.sign_eq_one_iff_pos.2 hq1,
                Int.sign_eq_one_iff_pos.2 hc])
          · exact Or.inr hq1.symm
      · show (x.Coeff.tmod p).sign = x.Coeff.sign ∨ x.Coeff.tmod p = 0
        rcases Int.lt_trichotomy x.Coeff 0 with hc | hc | hc
        · have hq : x.Coeff.tmod p ≤ 0 :=
            tmod_nonpos_of_nonpos (le_of_lt hc)
          rcases Int.le_iff_lt_or_eq.1 hq with hq1 | hq1
          · exact Or.inl (by
              rw [Int.sign_eq_neg_one_iff_neg.2 hq1,
                Int.sign_eq_neg_one_iff_neg.2 hc])
          · exact Or.inr hq1
        · exact Or.inr (by rw [hc, Int.zero_tmod])
        · have hq : 0 ≤ x.Coeff.tmod p :=
            Int.tmod_nonneg p (le_of_lt hc)
          rcases Int.le_iff_lt_or_eq.1 hq with hq1 | hq1
          · exact Or.inl (by
              rw [Int.sign_eq_one_iff_pos.2 hq1,
                Int.sign_eq_one_iff_pos.2 hc])
          · exact Or.inr hq1.symm

/- ----------------------------------------------------------------- -/
/- sumDeltas lemmas (for the setExponent range claim).                -/
/- ----------------------------------------------------------------- -/

theorem sumDeltas_err_hi (pre : List Int) (x : Int) (rest : List Int)
    (acc : Int) (hpre : ∀ z ∈ pre, MinExponent ≤ z ∧ z ≤ MaxExponent)
    (hx : MaxExponent < x) :
    sumDeltas acc (pre ++ x :: rest) =
      Except.error (SystemOverflow ||| Overflow) := by
  induction pre generalizing acc with
  | nil =>
    rw [List.nil_append, sumDeltas, if_pos hx]
  | cons a t ih =>
    have ha := hpre a (by simp)
    rw [List.cons_append, sumDeltas, if_neg (by omega), if_neg (by omega)]
    exact ih (acc + a) (fun z hz => hpre z (by simp [hz]))

theorem sumDeltas_err_lo (pre : List Int) (x : Int) (rest : List Int)
    (acc : Int) (hpre : ∀ z ∈ pre, MinExponent ≤ z ∧ z ≤ MaxExponent)
    (hx : x < MinExponent) :
    sumDeltas acc (pre ++ x :: rest) =
      Except.error (SystemUnderflow ||| Underflow) := by
  induction pre generalizing acc with
  | nil =>
    rw [List.nil_append, sumDeltas,
      if_neg (by unfold MaxExponent MinExponent at *; omega), if_pos hx]
  | cons a t ih =>
    have ha := hpre a (by simp)
    rw [List.cons_append, sumDeltas, if_neg (by omega), if_neg (by omega)]
    exact ih (acc + a) (fun z hz => hpre z (by simp [hz]))

theorem sumDeltas_ok (xs : List Int) (acc : Int)
    (h : ∀ z ∈ xs, MinExponent ≤ z ∧ z ≤ MaxExponent) :
    sumDeltas acc xs = Except.ok (acc + xs.sum) := by
  induction xs generalizing acc with
  | nil => simp [sumDeltas]
  | cons a t ih =>
    have ha := h a (by simp)
    rw [sumDeltas, if_neg (by omega), if_neg (by omega),
      ih (acc + a) (fun z hz => h z (by simp [hz]))]
    simp [add_assoc]

/-- C5: Cmp returns -1, 0 or +1 according as the exact numeric value of
d is below, equal to, or above that of x; it is thus a total order on
values and independent of the (Coeff, Exponent) encoding. -/
theorem cmp_is_value_order_c5 (d x : Decimal) :
    d.Cmp x = cmpQ (val d) (val x) :=
  cmp_val d x

/-- C3 (amended): setExponent scans the deltas left to right, and the
first delta above MaxExponent yields SystemOverflow with Overflow while
the first below MinExponent yields SystemUnderflow with Underflow; when
every delta is in range it is the adjusted exponent sum + NumDigits - 1
(not the raw sum) that is compared against the bounds. -/
theorem setExponent_range_c3 (c : Context) (res : Condition)
    (d : Decimal) (xs : List Int) :
    (∀ pre x rest, xs = pre ++ x :: rest →
      (∀ z ∈ pre, MinExponent ≤ z ∧ z ≤ MaxExponent) →
      (MaxExponent < x →
        (d.setExponent c res xs).2 = (SystemOverflow ||| Overflow)) ∧
      (x < MinExponent →
        (d.setExponent c res xs).2 = (SystemUnderflow ||| Underflow))) ∧
    ((∀ z ∈ xs, MinExponent ≤ z ∧ z ≤ MaxExponent) →
      (MaxExponent < xs.sum + d.NumDigits - 1 →
        (d.setExponent c res xs).2 = (SystemOverflow ||| Overflow)) ∧
      (xs.sum + d.NumDigits - 1 < MinExponent →
        (d.setExponent c res xs).2 = (SystemUnderflow ||| Underflow))) := by
  constructor
  · intro pre x rest hxs hpre
    constructor
    · intro hx
      unfold Decimal.setExponent
      rw [hxs, sumDeltas_err_hi pre x rest 0 hpre hx]
    · intro hx
      unfold Decimal.setExponent
      rw [hxs, sumDeltas_err_lo pre x rest 0 hpre hx]
  · intro hall
    constructor
    · intro hadj
      unfold Decimal.setExponent
      rw [sumDeltas_ok xs 0 hall]
      simp only [zero_add]
      rw [if_pos hadj]
    · intro hadj
      unfold Decimal.setExponent
      rw [sumDeltas_ok xs 0 hall]
      simp only [zero_add]
      rw [if_neg (by unfold MaxExponent MinExponent at *; omega),
        if_pos hadj]

/-- Witness for the setExponent range theorem: concrete early aborts
and adjusted-exponent aborts. -/
theorem setExponent_range_c3_witness :
    (Decimal.setExponent ⟨7, 0⟩ BaseContext 0 [100001]).2 =
      (SystemOverflow ||| Overflow) ∧
    (Decimal.setExponent ⟨7, 0⟩ BaseContext 0 [-100001]).2 =
      (SystemUnderflow ||| Underflow) ∧
    (Decimal.setExponent ⟨77, 0⟩ BaseContext 0 [50000, 50000]).2 =
      (SystemOverflow ||| Overflow) ∧
    (Decimal.setExponent ⟨7, 0⟩ BaseContext 0 [-50000, -50001]).2 =
      (SystemUnderflow ||| Underflow) := by
  refine ⟨?_, ?_, ?_, ?_⟩
  · exact ((setExponent_range_c3 BaseContext 0 ⟨7, 0⟩ [100001]).1
      [] 100001 [] rfl (by simp)).1 (by decide)
  · exact ((setExponent_range_c3 BaseContext 0 ⟨7, 0⟩ [-100001]).1
      [] (-100001) [] rfl (by simp)).2 (by decide)
  · exact ((setExponent_range_c3 BaseContext 0 ⟨77, 0⟩
      [50000, 50000]).2 (by decide)).1 (by decide)
  · exact ((setExponent_range_c3 BaseContext 0 ⟨7, 0⟩
      [-50000, -50001]).2 (by decide)).2 (by decide)

/-- C3 counterexample: a delta list whose sum is below MinExponent
(so the claim demands SystemUnderflow with Underflow) on which
setExponent returns the empty condition, because with a 5-digit
coefficient the adjusted exponent is back inside the bounds. -/
theorem setExponent_sum_counterexample_c3 :
    (-50000 : Int) + -50001 < MinExponent ∧
    (∀ z ∈ [(-50000 : Int), -50001],
      MinExponent ≤ z ∧ z ≤ MaxExponent) ∧
    (Decimal.setExponent ⟨10000, 0⟩ BaseContext 0 [-50000, -50001]).2
      = 0 := by
  refine ⟨by decide, by decide, by decide⟩

/-- C4: Context.Quo demands a positive precision and refuses precision
above 5000, returning an error and an untouched destination in both
cases; inside that range a zero divisor yields DivisionUndefined when
the dividend is also zero and DivisionByZero otherwise. -/
theorem quo_guards_c4 (c : Context) (d x y : Decimal) :
    (c.Precision = 0 → c.Quo d x y = (d, 0, some errZeroPrecisionStr)) ∧
    (5000 < c.Precision →
      c.Quo d x y = (d, 0, some "Quo requires Precision <= 5000")) ∧
    (0 < c.Precision → c.Precision ≤ 5000 → y.Coeff = 0 → x.Coeff = 0 →
      c.Quo d x y = (d, c.goError DivisionUndefined)) ∧
    (0 < c.Precision → c.Precision ≤ 5000 → y.Coeff = 0 → x.Coeff ≠ 0 →
      c.Quo d x y = (d, c.goError DivisionByZero)) := by
  refine ⟨?_, ?_, ?_, ?_⟩
  · intro h
    unfold Context.Quo
    rw [if_pos h]
  · intro h
    unfold Context.Quo
    rw [if_neg (by omega), if_pos h]
  · intro h1 h2 hy hx
    unfold Context.Quo
    rw [if_neg (by omega), if_neg (by omega),
      if_pos (by simp [Decimal.Sign, hy]),
      if_pos (by simp [Decimal.Sign, hx])]
  · intro h1 h2 hy hx
    unfold Context.Quo
    rw [if_neg (by omega), if_neg (by omega),
      if_pos (by simp [Decimal.Sign, hy]),
      if_neg (by simp [Decimal.Sign, Int.sign_eq_zero_iff_zero, hx])]

/-- Witness for the Quo guard theorem at concrete inputs. -/
theorem quo_guards_c4_witness :
    BaseContext.Quo ⟨0, 0⟩ ⟨1, 0⟩ ⟨3, 0⟩ =
      (⟨0, 0⟩, 0, some errZeroPrecisionStr) ∧
    (⟨5001, roundHalfUp, 100000, -100000, DefaultTraps⟩ : Context).Quo
      ⟨0, 0⟩ ⟨1, 0⟩ ⟨3, 0⟩ =
      (⟨0, 0⟩, 0, some "Quo requires Precision <= 5000") ∧
    (⟨5, roundHalfUp, 100000, -100000, DefaultTraps⟩ : Context).Quo
      ⟨0, 0⟩ ⟨0, 0⟩ ⟨0, 0⟩ =
      (⟨0, 0⟩, (⟨5, roundHalfUp, 100000, -100000, DefaultTraps⟩ :
        Context).goError DivisionUndefined) ∧
    (⟨5, roundHalfUp, 100000, -100000, DefaultTraps⟩ : Context).Quo
      ⟨0, 0⟩ ⟨1, 0⟩ ⟨0, 0⟩ =
      (⟨0, 0⟩, (⟨5, roundHalfUp, 100000, -100000, DefaultTraps⟩ :
        Context).goError DivisionByZero) := by
  refine ⟨?_, ?_, ?_, ?_⟩
  · exact (quo_guards_c4 BaseContext ⟨0, 0⟩ ⟨1, 0⟩ ⟨3, 0⟩).1 rfl
  · exact (quo_guards_c4 _ ⟨0, 0⟩ ⟨1, 0⟩ ⟨3, 0⟩).2.1 (by decide)
  · exact (quo_guards_c4 _ ⟨0, 0⟩ ⟨0, 0⟩ ⟨0, 0⟩).2.2.1 (by decide)
      (by decide) rfl rfl
  · exact (quo_guards_c4 _ ⟨0, 0⟩ ⟨1, 0⟩ ⟨0, 0⟩).2.2.2 (by decide)
      (by decide) rfl (by decide)

theorem GoError_fst (r t : Condition) : (Condition.GoError r t).1 = r := by
  unfold Condition.GoError
  split_ifs <;> rfl

theorem has_two_pow (n : Nat) (k : Nat) :
    Condition.has n (2 ^ k) = n.testBit k := by
  unfold Condition.has
  rw [Nat.and_two_pow]
  cases h : n.testBit k
  · simp [h]
  · simp only [h, Bool.toNat_true, one_mul, ne_eq]
    simp [Nat.pos_iff_ne_zero.symm]

theorem has_or_subnormal (m : Condition) :
    Condition.has (Subnormal ||| m) Subnormal = true := by
  have h32 : Subnormal = 2 ^ 5 := rfl
  rw [h32, has_two_pow, Nat.testBit_or]
  simp
  exact Or.inl (by decide)

/-- C9: Context.Rem with a zero divisor returns DivisionUndefined when
the dividend is zero, and InvalidOperation (not DivisionByZero) when it
is nonzero; under DefaultTraps the error message is exactly
"invalid operation". -/
theorem rem_zero_divisor_c9 (c : Context) (d x y : Decimal)
    (hy : y.Coeff = 0) :
    (x.Coeff = 0 → c.Rem d x y = (d, c.goError DivisionUndefined)) ∧
    (x.Coeff ≠ 0 →
      c.Rem d x y = (d, c.goError InvalidOperation) ∧
      Condition.has (c.Rem d x y).2.1 InvalidOperation = true ∧
      Condition.has (c.Rem d x y).2.1 DivisionByZero = false ∧
      (c.Traps = DefaultTraps →
        (c.Rem d x y).2.2 = some "invalid operation")) := by
  have hys : y.Sign = 0 := by simp [Decimal.Sign, hy]
  constructor
  · intro hx
    unfold Context.Rem
    rw [if_pos hys, if_pos (by simp [Decimal.Sign, hx])]
  · intro hx
    have hxs : x.Sign ≠ 0 := by
      simp [Decimal.Sign, Int.sign_eq_zero_iff_zero]
      exact hx
    have hEq : c.Rem d x y = (d, c.goError InvalidOperation) := by
      unfold Context.Rem
      rw [if_pos hys, if_neg hxs]
    refine ⟨hEq, ?_, ?_, ?_⟩
    · rw [hEq]
      show Condition.has (c.goError InvalidOperation).1 InvalidOperation
        = true
      unfold Context.goError
      rw [GoError_fst]
      decide
    · rw [hEq]
      show Condition.has (c.goError InvalidOperation).1 DivisionByZero
        = false
      unfold Context.goError
      rw [GoError_fst]
      decide
    · intro ht
      rw [hEq]
      show (c.goError InvalidOperation).2 = some "invalid operation"
      unfold Context.goError
      rw [ht]
      decide

/-- Witness for the Rem zero-divisor theorem at concrete inputs. -/
theorem rem_zero_divisor_c9_witness :
    BaseContext.Rem ⟨0, 0⟩ ⟨0, 0⟩ ⟨0, 7⟩ =
      (⟨0, 0⟩, BaseContext.goError DivisionUndefined) ∧
    (BaseContext.Rem ⟨0, 0⟩ ⟨3, 0⟩ ⟨0, 0⟩).2.2 =
      some "invalid operation" := by
  refine ⟨?_, ?_⟩
  · exact (rem_zero_divisor_c9 BaseContext ⟨0, 0⟩ ⟨0, 0⟩ ⟨0, 7⟩ rfl).1 rfl
  · exact ((rem_zero_divisor_c9 BaseContext ⟨0, 0⟩ ⟨3, 0⟩ ⟨0, 0⟩ rfl).2
      (by decide)).2.2.2 rfl

/-- C10: on a nonzero input whose adjusted exponent is below the
context MinExponent, Rounder.Round sets Subnormal and delegates
directly to setExponent, skipping the precision-based coefficient
division entirely (the result does not depend on the rounder receiver,
even when the input has more digits than the precision), so a subnormal
value is rounded at most once, at Etiny. -/
theorem rounder_subnormal_c10 (c : Context) (r : Rounder) (x : Decimal)
    (h1 : x.Coeff ≠ 0)
    (h2 : x.Exponent + x.NumDigits - 1 < c.MinExponent) :
    Rounder.Round r c x =
      ((x.setExponent c Subnormal [x.Exponent]).1,
        Subnormal ||| (x.setExponent c Subnormal [x.Exponent]).2) ∧
    Condition.has (Rounder.Round r c x).2 Subnormal = true ∧
    (∀ r2 : Rounder, Rounder.Round r2 c x = Rounder.Round r c x) := by
  have hxs : x.Sign ≠ 0 := by
    simp [Decimal.Sign, Int.sign_eq_zero_iff_zero]
    exact h1
  have hcond : x.Sign ≠ 0 ∧ x.Exponent + x.NumDigits - 1 < c.MinExponent :=
    ⟨hxs, h2⟩
  have hEq : ∀ r2 : Rounder, Rounder.Round r2 c x =
      ((x.setExponent c Subnormal [x.Exponent]).1,
        Subnormal ||| (x.setExponent c Subnormal [x.Exponent]).2) := by
    intro r2
    unfold Rounder.Round
    rw [if_pos hcond]
  refine ⟨hEq r, ?_, fun r2 => (hEq r2).trans (hEq r).symm⟩
  rw [hEq r]
  exact has_or_subnormal _

/-- Witness for the subnormal rounding theorem: a 5-digit coefficient
at precision 2 (so the precision division would apply if consulted)
whose adjusted exponent -16 is below MinExponent -5; two different
rounders agree and Subnormal is raised. -/
theorem rounder_subnormal_c10_witness :
    Rounder.Round roundDown
      ⟨2, roundHalfUp, 5, -5, DefaultTraps⟩ ⟨12345, -20⟩ =
    Rounder.Round roundHalfEven
      ⟨2, roundHalfUp, 5, -5, DefaultTraps⟩ ⟨12345, -20⟩ ∧
    Condition.has (Rounder.Round roundDown
      ⟨2, roundHalfUp, 5, -5, DefaultTraps⟩ ⟨12345, -20⟩).2 Subnormal
      = true := by
  refine ⟨?_, ?_⟩
  · exact (rounder_subnormal_c10 ⟨2, roundHalfUp, 5, -5, DefaultTraps⟩
      roundHalfEven ⟨12345, -20⟩ (by decide) (by decide)).2.2 roundDown
  · exact (rounder_subnormal_c10 ⟨2, roundHalfUp, 5, -5, DefaultTraps⟩
      roundDown ⟨12345, -20⟩ (by decide) (by decide)).2.1

/-- C1: evaluation of Quantize at a subnormal input on which it
returns a condition with the Underflow flag set, contradicting the
guarantee that Quantize never raises Underflow (the snapshot lacks the
mask that upstream applies to the rounding result).  Precision 1,
exponent range [-5, 5]: quantizing 1E-10 to exponent -10 leaves the
value untouched but the final rounding pass rounds it at Etiny and
raises Underflow. -/
theorem quantize_underflow_c1 :
    (⟨1, roundHalfUp, 5, -5, DefaultTraps⟩ : Context).Quantize
      ⟨0, 0⟩ ⟨1, -10⟩ (-10) =
    (⟨0, -5⟩,
      Underflow ||| Inexact ||| Subnormal ||| Rounded ||| Clamped,
      some "underflow, subnormal") ∧
    Condition.has ((⟨1, roundHalfUp, 5, -5, DefaultTraps⟩ :
      Context).Quantize ⟨0, 0⟩ ⟨1, -10⟩ (-10)).2.1 Underflow = true := by
  refine ⟨by decide, by decide⟩

/-- C2: evaluation of Context.Ceil at x = 0.05 with the destination
aliased to the source, against the fresh-destination run: the aliased
call zeroes the receiver inside Modf before the fractional part is
read, so it returns 0 while the non-aliased call returns 1. -/
theorem ceil_alias_c2 :
    BaseContext.CeilAliased ⟨5, -2⟩ = (⟨0, 0⟩, 0, none) ∧
    BaseContext.Ceil ⟨0, 0⟩ ⟨5, -2⟩ = (⟨1, 0⟩, 0, none) ∧
    Decimal.Cmp ⟨0, 0⟩ ⟨1, 0⟩ ≠ 0 := by
  refine ⟨by decide, by decide, by decide⟩

theorem cmpQ_eq_zero_iff (a b : ℚ) : cmpQ a b = 0 ↔ a = b := by
  unfold cmpQ
  rcases lt_trichotomy a b with h | h | h
  · rw [if_pos h]
    constructor
    · intro hc
      exact absurd hc (by decide)
    · intro hc
      exact absurd hc (ne_of_lt h)
  · rw [if_neg (by rw [h]; exact lt_irrefl b),
      if_neg (by rw [h]; exact lt_irrefl b)]
    simp [h]
  · rw [if_neg (not_lt.2 (le_of_lt h)), if_pos h]
    constructor
    · intro hc
      exact absurd hc (by decide)
    · intro hc
      exact absurd hc (ne_of_gt h)

theorem val_decimalOne : val decimalOne = 1 := by
  simp [val, decimalOne, New]

theorem cmp_one_ne (d : Decimal) (h : val d ≠ 1) :
    d.Cmp decimalOne ≠ 0 := by
  rw [cmp_val, val_decimalOne]
  intro hc
  exact h ((cmpQ_eq_zero_iff _ _).1 hc)

theorem cmp_one_eq (d : Decimal) (h : val d = 1) :
    d.Cmp decimalOne = 0 := by
  rw [cmp_val, val_decimalOne]
  exact (cmpQ_eq_zero_iff _ _).2 h

theorem val_zero_of_coeff_zero (d : Decimal) (h : d.Coeff = 0) :
    val d = 0 := (val_eq_zero_iff d).2 h

/-- C6 (amended): the Pow shortcut paths.  With y equal to 1 (or x
equal to 1) the result is x rounded to the context, not x verbatim;
the exact-constant shortcuts return 1 and 0 unrounded; x = 0 with
negative y raises InvalidOperation; and with negative x it is the
fractional part of the context-rounded |y| (computed through c.Abs,
assumed to return no error) that decides InvalidOperation. -/
theorem pow_shortcuts_c6 (c : Context) (d x y : Decimal) :
    (val y = 1 → c.Pow d x y = some (c.Round x)) ∧
    (val x = 1 → c.Pow d x y = some (c.Round x)) ∧
    ((c.Abs y).2.2 = none → val y ≠ 1 →
      (x.Coeff = 0 → y.Coeff = 0 →
        c.Pow d x y = some (decimalOne, 0, none)) ∧
      (x.Coeff = 0 → 0 < y.Coeff →
        c.Pow d x y = some (decimalZero, 0, none)) ∧
      (x.Coeff = 0 → y.Coeff < 0 →
        c.Pow d x y = some (d, c.goError InvalidOperation)) ∧
      (x.Coeff ≠ 0 → val x ≠ 1 → y.Coeff = 0 →
        c.Pow d x y = some (decimalOne, 0, none)) ∧
      (x.Coeff < 0 → val x ≠ 1 → y.Coeff ≠ 0 →
        ((c.Abs y).1.Modf).2.Coeff ≠ 0 →
        c.Pow d x y = some (d, c.goError InvalidOperation))) := by
  refine ⟨?_, ?_, ?_⟩
  · intro hy
    unfold Context.Pow
    rw [if_pos (cmp_one_eq y hy)]
  · intro hx
    unfold Context.Pow
    by_cases hy : y.Cmp decimalOne = 0
    · rw [if_pos hy]
    · rw [if_neg hy, if_pos (cmp_one_eq x hx)]
  · intro habs hy
    have hyc := cmp_one_ne y hy
    refine ⟨?_, ?_, ?_, ?_, ?_⟩
    · intro hx0 hy0
      have hxc : x.Cmp decimalOne ≠ 0 :=
        cmp_one_ne x (by rw [val_zero_of_coeff_zero x hx0]; norm_num)
      unfold Context.Pow
      rw [if_neg hyc, if_neg hxc]
      dsimp only
      rw [habs]
      simp only [Decimal.Sign, hx0, hy0, Int.sign_zero]
      rfl
    · intro hx0 hypos
      have hxc : x.Cmp decimalOne ≠ 0 :=
        cmp_one_ne x (by rw [val_zero_of_coeff_zero x hx0]; norm_num)
      unfold Context.Pow
      rw [if_neg hyc, if_neg hxc]
      dsimp only
      rw [habs]
      simp only [Decimal.Sign, hx0, Int.sign_zero,
        Int.sign_eq_one_iff_pos.2 hypos]
      rfl
    · intro hx0 hyneg
      have hxc : x.Cmp decimalOne ≠ 0 :=
        cmp_one_ne x (by rw [val_zero_of_coeff_zero x hx0]; norm_num)
      unfold Context.Pow
      rw [if_neg hyc, if_neg hxc]
      dsimp only
      rw [habs]
      simp only [Decimal.Sign, hx0, Int.sign_zero,
        Int.sign_eq_neg_one_iff_neg.2 hyneg]
      rfl
    · intro hx0 hx1 hy0
      have hxc := cmp_one_ne x hx1
      unfold Context.Pow
      rw [if_neg hyc, if_neg hxc]
      dsimp only
      rw [habs]
      simp only [Decimal.Sign, hy0, Int.sign_zero,
        Int.sign_eq_zero_iff_zero]
      simp [hx0]
    · intro hxneg hx1 hy0 hfrac
      have hxc := cmp_one_ne x hx1
      unfold Context.Pow
      rw [if_neg hyc, if_neg hxc]
      dsimp only
      rw [habs]
      have hxs : x.Sign = -1 := Int.sign_eq_neg_one_iff_neg.2 hxneg
      have hys : y.Sign ≠ 0 := by
        simp [Decimal.Sign, Int.sign_eq_zero_iff_zero]
        exact hy0
      have hfs : ((c.Abs y).1.Modf).2.Sign ≠ 0 := by
        simp [Decimal.Sign, Int.sign_eq_zero_iff_zero]
        exact hfrac
      rw [if_neg (by rw [hxs]; decide), if_neg hys,
        if_pos (Or.inr ⟨by rw [hxs]; decide, hfs⟩)]

/-- Witness for the Pow shortcut theorem: 0 to a positive power is 0
and a nonzero base to the power 0 is 1, at concrete inputs. -/
theorem pow_shortcuts_c6_witness :
    BaseContext.Pow ⟨0, 0⟩ ⟨0, 0⟩ ⟨2, 0⟩ = some (decimalZero, 0, none) ∧
    BaseContext.Pow ⟨0, 0⟩ ⟨7, 0⟩ ⟨0, 0⟩ = some (decimalOne, 0, none) := by
  refine ⟨?_, ?_⟩
  · exact ((pow_shortcuts_c6 BaseContext ⟨0, 0⟩ ⟨0, 0⟩ ⟨2, 0⟩).2.2
      (by decide) (by norm_num [Apd.val])).2.1 rfl (by decide)
  · exact ((pow_shortcuts_c6 BaseContext ⟨0, 0⟩ ⟨7, 0⟩ ⟨0, 0⟩).2.2
      (by decide) (by norm_num [Apd.val])).2.2.2.1 (by decide)
      (by norm_num [Apd.val]) rfl

/-- C6 counterexample: Pow with y = 1 at precision 1 returns the
context-rounded base (10), not the base itself (12). -/
theorem pow_c6_counterexample :
    (⟨1, roundHalfUp, 100000, -100000, DefaultTraps⟩ : Context).Pow
      ⟨0, 0⟩ ⟨12, 0⟩ ⟨1, 0⟩ =
      some (⟨1, 1⟩, Inexact ||| Rounded, none) ∧
    Decimal.Cmp ⟨1, 1⟩ ⟨12, 0⟩ ≠ 0 := by
  refine ⟨by decide, by decide⟩

/- ----------------------------------------------------------------- -/
/- ToSci lemmas.                                                      -/
/- ----------------------------------------------------------------- -/

theorem natDigitsAux_length (fuel n : Nat) :
    (natDigitsAux fuel n).length = numDigitsAux fuel n := by
  induction fuel generalizing n with
  | zero => rfl
  | succ fuel ih =>
    rw [natDigitsAux, numDigitsAux]
    by_cases h : n < 10
    · rw [if_pos h, if_pos h]
      rfl
    · rw [if_neg h, if_neg h, List.length_append, ih (n / 10)]
      simp [Nat.add_comm]

theorem natDigits_length (n : Nat) :
    (natDigits n).length = numDigitsNat n :=
  natDigitsAux_length n n

theorem digitChar_ne_E (k : Nat) (h : k < 10) : digitChar k ≠ 'E' := by
  interval_cases k <;> decide

theorem mem_natDigitsAux_ne_E (fuel n : Nat) (c : Char)
    (h : c ∈ natDigitsAux fuel n) : c ≠ 'E' := by
  induction fuel generalizing n with
  | zero =>
    rw [natDigitsAux] at h
    rcases List.mem_singleton.1 h with rfl
    exact digitChar_ne_E _ (Nat.mod_lt n (by omega))
  | succ fuel ih =>
    rw [natDigitsAux] at h
    by_cases hn : n < 10
    · rw [if_pos hn] at h
      rcases List.mem_singleton.1 h with rfl
      exact digitChar_ne_E _ hn
    · rw [if_neg hn] at h
      rcases List.mem_append.1 h with h1 | h1
      · exact ih (n / 10) h1
      · rcases List.mem_singleton.1 h1 with rfl
        exact digitChar_ne_E _ (Nat.mod_lt n (by omega))

theorem mem_natDigits_ne_E (n : Nat) (c : Char) (h : c ∈ natDigits n) :
    c ≠ 'E' :=
  mem_natDigitsAux_ne_E n n c h

/-- C7 (amended): ToSci emits a string containing the exponent marker
E exactly when the standard-form condition (Exponent at most 0 and
adjusted exponent at least -6) fails; the zero value with exponent 0
prints as the single character 0 (a zero coefficient with a nonzero
exponent prints with trailing zeros or in exponent form, see the
counterexample). -/
theorem tosci_form_c7 (d : Decimal) :
    (('E' ∈ d.ToSci) ↔
      ¬(d.Exponent ≤ 0 ∧ -6 ≤ d.Exponent + d.NumDigits - 1)) ∧
    (d.Coeff = 0 ∧ d.Exponent = 0 → d.ToSci = ['0']) := by
  constructor
  · unfold Decimal.ToSci
    dsimp only
    have hadj : d.Exponent + (((natDigits d.Coeff.natAbs).length : Int) - 1)
        = d.Exponent + d.NumDigits - 1 := by
      rw [natDigits_length]
      show d.Exponent + ((numDigitsNat d.Coeff.natAbs : Int) - 1) =
        d.Exponent + d.NumDigits - 1
      show d.Exponent + ((numDigitsNat d.Coeff.natAbs : Int) - 1) =
        d.Exponent + (numDigitsNat d.Coeff.natAbs : Int) - 1
      ring
    by_cases hcond : d.Exponent ≤ 0 ∧
        -6 ≤ d.Exponent + (((natDigits d.Coeff.natAbs).length : Int) - 1)
    · rw [if_pos hcond]
      have hclaim : d.Exponent ≤ 0 ∧ -6 ≤ d.Exponent + d.NumDigits - 1 := by
        rw [hadj] at hcond
        exact hcond
      constructor
      · intro hE
        exfalso
        rcases List.mem_append.1 hE with h1 | h1
        · split at h1
          · rcases List.mem_singleton.1 h1 with h2
            exact absurd h2 (by decide)
          · simp at h1
        · revert h1
          split
          · split
            · intro h1
              rcases List.mem_cons.1 h1 with h2 | h2
              · exact absurd h2 (by decide)
              rcases List.mem_cons.1 h2 with h3 | h3
              · exact absurd h3 (by decide)
              rcases List.mem_append.1 h3 with h4 | h4
              · rcases List.eq_of_mem_replicate h4 with h5
                exact absurd h5 (by decide)
              · exact mem_natDigits_ne_E _ _ h4 rfl
            · split
              · intro h1
                rcases List.mem_append.1 h1 with h2 | h2
                · exact mem_natDigits_ne_E _ _
                    (List.take_subset _ _ h2) rfl
                rcases List.mem_cons.1 h2 with h3 | h3
                · exact absurd h3 (by decide)
                · exact mem_natDigits_ne_E _ _
                    (List.drop_subset _ _ h3) rfl
              · intro h1
                rcases List.mem_cons.1 h1 with h2 | h2
                · exact absurd h2 (by decide)
                rcases List.mem_cons.1 h2 with h3 | h3
                · exact absurd h3 (by decide)
                · exact mem_natDigits_ne_E _ _ h3 rfl
          · intro h1
            exact mem_natDigits_ne_E _ _ h1 rfl
      · intro hR
        exact absurd hclaim hR
    · rw [if_neg hcond]
      have hclaim : ¬(d.Exponent ≤ 0 ∧ -6 ≤ d.Exponent + d.NumDigits - 1) := by
        rw [hadj] at hcond
        exact hcond
      constructor
      · intro _
        exact hclaim
      · intro _
        exact List.mem_append.2 (Or.inr (List.mem_cons_self _ _))
  · intro h
    rcases d with ⟨co, ex⟩
    dsimp only at h
    rcases h with ⟨h1, h2⟩
    subst h1
    subst h2
    decide

/-- Witness for the ToSci form theorem: zero prints as 0, and a value
needing an exponent contains the E marker. -/
theorem tosci_form_c7_witness :
    Decimal.ToSci ⟨0, 0⟩ = ['0'] ∧ ('E' ∈ Decimal.ToSci ⟨12, 3⟩) := by
  refine ⟨(tosci_form_c7 ⟨0, 0⟩).2 ⟨rfl, rfl⟩, ?_⟩
  exact (tosci_form_c7 ⟨12, 3⟩).1.2 (by decide)

/-- C7 counterexample: a zero value with a nonzero exponent does not
print as the bare string 0 — with exponent 5 it prints 0E+5 and with
exponent -3 it prints 0.000. -/
theorem tosci_zero_counterexample_c7 :
    (⟨0, 5⟩ : Decimal).Coeff = 0 ∧
    Decimal.ToSci ⟨0, 5⟩ = ['0', 'E', '+', '5'] ∧
    Decimal.ToSci ⟨0, 5⟩ ≠ ['0'] ∧
    Decimal.ToSci ⟨0, -3⟩ = ['0', '.', '0', '0', '0'] := by
  refine ⟨rfl, by decide, by decide, by decide⟩

end Apd
